import Mathlib

/-!
Verification development for the spline-group animation evaluator
(`crates/bevy_animation/src/spline_group.rs`).

Modelling decisions:
* `f32` values (times, speeds, deltas) are modelled as exact rationals `ℚ`;
  the spec treats them as real numbers and every claim is about exact
  comparisons and exact arithmetic.
* a track is its ordered list of key times (the engine only ever reads key
  times, via `spline_key_times`); a track-set carries the list of tracks
  plus the shared playback state fields of the `SplineGroup` trait.
* Rust's `f32::signum` returns `1.0` on positive values and `+0.0`, and
  `-1.0` on negative values and `-0.0`; rationals have no `-0.0` or NaN,
  so it is `if x < 0 then -1 else 1`.
-/

namespace Bevy

/-- Playback policy `LoopStyle` from `spline_group.rs`: `Once`, `Loop`, `PingPong`. -/
inductive LoopStyle where
  | Once : LoopStyle
  | Loop : LoopStyle
  | PingPong : LoopStyle
deriving DecidableEq

/-- Rust `f32::signum`, restricted to rationals (no `-0.0`, no NaN):
`-1` on negatives, `1` otherwise. -/
def fsign (x : ℚ) : ℚ := if x < 0 then -1 else 1

/-- A track-set (`SplineGroup` state): the key-time lists of the owned
tracks plus the shared playback state. -/
structure SplineGroup where
  tracks : List (List ℚ)
  loop_style : LoopStyle
  time : ℚ
  speed : ℚ
  paused : Bool
  pong : Bool
deriving DecidableEq

namespace SplineGroup

/-- Method `spline_key_times`: one iterator of key times per track; the iterator
is modelled as the list it yields front-to-back. -/
def spline_key_times (g : SplineGroup) : List (List ℚ) := g.tracks

/-- Method `is_empty`: no track's key-time iterator yields a first element. -/
def is_empty (g : SplineGroup) : Bool :=
  !(g.spline_key_times.any fun t => t.head?.isSome)

/-- Method `start_time`: fold of `if v < acc then v else acc` over the first key
time of each non-empty track; `none` when every track is empty. -/
def start_time (g : SplineGroup) : Option ℚ :=
  match g.spline_key_times.filterMap (fun t => t.head?) with
  | [] => none
  | first :: rest =>
      some (rest.foldl (fun acc v => if v < acc then v else acc) first)

/-- Method `end_time`: fold of `if v > acc then v else acc` over the last key
time (`next_back`) of each non-empty track; `none` when every track is
empty. -/
def end_time (g : SplineGroup) : Option ℚ :=
  match g.spline_key_times.filterMap (fun t => t.getLast?) with
  | [] => none
  | first :: rest =>
      some (rest.foldl (fun acc v => if v > acc then v else acc) first)

/-- Method `duration`: `start_time.zip(end_time).map(|(s, e)| (s - e).abs())`
(the wrapping of the seconds value into a `core::time::Duration` is
modelled as the non-negative rational number of seconds itself). -/
def duration (g : SplineGroup) : Option ℚ :=
  match g.start_time, g.end_time with
  | some s, some e => some |s - e|
  | _, _ => none

/-- The `past_boundary` computation inside `advance` (lines 83-90):
`direction = speed.signum()`, `reversed = direction < 0.0`, then the
four-way match on `(reversed, pong)` against the pre-tick `time`. -/
def past_boundary (g : SplineGroup) (start stop : ℚ) : Bool :=
  let direction := fsign g.speed
  let reversed := decide (direction < 0)
  match reversed, g.pong with
  | true, true => decide (stop < g.time)
  | true, false => decide (start > g.time)
  | false, true => decide (start > g.time)
  | false, false => decide (stop < g.time)

/-- Method `advance(delta_time)` from `spline_group.rs` lines 76-126. The
`start_time().unwrap()` / `end_time().unwrap()` calls appear as a match;
the `none` branch is unreachable once the `is_empty` guard has passed
(`start_time_isSome_of_not_empty` below) and returns the state unchanged. -/
def advance (g : SplineGroup) (delta_time : ℚ) : SplineGroup :=
  if g.is_empty || g.paused then g
  else
    match g.start_time, g.end_time with
    | some start, some stop =>
        let pb := g.past_boundary start stop
        let reversed := decide (fsign g.speed < 0)
        let loop_time_start := if reversed then stop else start
        let pong_signum : ℚ := if g.pong then -1 else 1
        match g.loop_style with
        | LoopStyle.Once =>
            if !pb then { g with time := g.time + delta_time * g.speed } else g
        | LoopStyle.Loop =>
            if !pb then { g with time := g.time + delta_time * g.speed }
            else { g with time := loop_time_start }
        | LoopStyle.PingPong =>
            if !pb then
              { g with time := g.time + delta_time * g.speed * pong_signum }
            else
              let new_pong := !g.pong
              { g with pong := new_pong,
                       time := if new_pong then stop else start }
    | _, _ => g

/-- Method `pause()`: sets `paused` to true. -/
def pause (g : SplineGroup) : SplineGroup := { g with paused := true }

/-- Method `play()`: sets `paused` to false. -/
def play (g : SplineGroup) : SplineGroup := { g with paused := false }

/-- Method `toggle_pause()`: inverts `paused`. -/
def toggle_pause (g : SplineGroup) : SplineGroup := { g with paused := !g.paused }

end SplineGroup

/-- Track-set of the §8 "Once policy freezes at boundary" scenario: one
track with keys {0, 1, 2}, speed 1, time 1.9, `Once`, not paused. -/
def onceExample : SplineGroup :=
  { tracks := [[0, 1, 2]], loop_style := LoopStyle.Once, time := 1.9,
    speed := 1, paused := false, pong := false }

/-- Track-set of the §8 "PingPong flips direction" scenario: one track
with keys {0, 1}, speed 1, time 0.9, `PingPong`, not paused. -/
def pingPongExample : SplineGroup :=
  { tracks := [[0, 1]], loop_style := LoopStyle.PingPong, time := 0.9,
    speed := 1, paused := false, pong := false }

/-- A paused track-set with non-trivial data. -/
def pausedExample : SplineGroup :=
  { tracks := [[0, 1]], loop_style := LoopStyle.Loop, time := 3,
    speed := 2, paused := true, pong := false }

/-- A track-set whose every track has zero control points. -/
def emptyExample : SplineGroup :=
  { tracks := [[], []], loop_style := LoopStyle.Loop, time := 7,
    speed := -3, paused := false, pong := true }

/-- A `Loop` track-set already past its boundary (end time 1 < time 2). -/
def loopPastExample : SplineGroup :=
  { tracks := [[0, 1]], loop_style := LoopStyle.Loop, time := 2,
    speed := 1, paused := false, pong := false }

/-- A reversed (`speed = -1`) `Loop` track-set already past its start
boundary (start time 0 > time -1). -/
def reverseLoopExample : SplineGroup :=
  { tracks := [[0, 2]], loop_style := LoopStyle.Loop, time := -1,
    speed := -1, paused := false, pong := false }

/-- A two-track track-set: one track holds the minimum key, the other the
maximum. -/
def twoTrackExample : SplineGroup :=
  { tracks := [[0, 1], [5, 6]], loop_style := LoopStyle.Once, time := 0,
    speed := 1, paused := false, pong := false }

/-- The same track-set with the two tracks exchanged. -/
def twoTrackSwapped : SplineGroup :=
  { tracks := [[5, 6], [0, 1]], loop_style := LoopStyle.Once, time := 0,
    speed := 1, paused := false, pong := false }

namespace SplineGroup

lemma fsign_lt_zero_iff (x : ℚ) : fsign x < 0 ↔ x < 0 := by
  unfold fsign
  by_cases h : x < 0 <;> simp [h]

lemma decide_fsign (x : ℚ) : decide (fsign x < 0) = decide (x < 0) := by
  simp [decide_eq_decide, fsign_lt_zero_iff]

lemma start_time_isSome_of_not_empty (g : SplineGroup) (h : g.is_empty = false) :
    g.start_time.isSome := by
  unfold is_empty at h
  unfold start_time
  rcases hf : g.spline_key_times.filterMap (fun t => t.head?) with _ | ⟨a, l⟩
  · rw [List.filterMap_eq_nil_iff] at hf
    simp only [Bool.not_eq_false', List.any_eq_true] at h
    obtain ⟨t, ht, hsome⟩ := h
    rw [hf t ht] at hsome
    simp at hsome
  · rw [hf]
    rfl

lemma end_time_isSome_of_not_empty (g : SplineGroup) (h : g.is_empty = false) :
    g.end_time.isSome := by
  unfold is_empty at h
  unfold end_time
  rcases hf : g.spline_key_times.filterMap (fun t => t.getLast?) with _ | ⟨a, l⟩
  · rw [List.filterMap_eq_nil_iff] at hf
    simp only [Bool.not_eq_false', List.any_eq_true] at h
    obtain ⟨t, ht, hsome⟩ := h
    rcases t with _ | ⟨x, xs⟩
    · simp at hsome
    · have := hf _ ht
      simp [List.getLast?_eq_none_iff] at this
  · rw [hf]
    rfl

/-- Every `advance` result only rewrites the `time` and `pong` fields. -/
lemma advance_shape (g : SplineGroup) (d : ℚ) :
    ∃ t p, g.advance d = { g with time := t, pong := p } := by
  unfold advance
  repeat' split
  all_goals try dsimp only
  repeat' split
  all_goals first
    | exact ⟨g.time, g.pong, rfl⟩
    | exact ⟨_, _, rfl⟩

/-- When the set is paused, `advance` returns the state unchanged. -/
lemma advance_of_paused (g : SplineGroup) (d : ℚ) (h : g.paused = true) :
    g.advance d = g := by
  unfold advance
  rw [h]
  simp

/-- Unfolding of `advance` once the emptiness and pause guards pass and
the boundary times are known. -/
lemma advance_eq_of_some (g : SplineGroup) (d s e : ℚ)
    (hne : g.is_empty = false) (hp : g.paused = false)
    (hs : g.start_time = some s) (he : g.end_time = some e) :
    g.advance d =
      match g.loop_style with
      | LoopStyle.Once =>
          if !(g.past_boundary s e) then { g with time := g.time + d * g.speed }
          else g
      | LoopStyle.Loop =>
          if !(g.past_boundary s e) then { g with time := g.time + d * g.speed }
          else { g with time := if decide (fsign g.speed < 0) then e else s }
      | LoopStyle.PingPong =>
          if !(g.past_boundary s e) then
            { g with time := g.time + d * g.speed * (if g.pong then -1 else 1) }
          else { g with pong := !g.pong, time := if !g.pong then e else s } := by
  unfold advance
  rw [hne, hp, hs, he]
  rfl

end SplineGroup

namespace SplineGroup

/-- C1: for every non-empty, unpaused track-set the past-boundary test of
`advance` is a function of `(reversed, pong)` over the pre-tick `time`,
where `reversed` holds iff the sign of `speed` is negative: the test is
`end_time < time` when `reversed` and `pong` agree and `start_time > time`
when they differ. -/
theorem past_boundary_table (g : SplineGroup) (s e : ℚ)
    (hne : g.is_empty = false) (hp : g.paused = false)
    (hs : g.start_time = some s) (he : g.end_time = some e) :
    decide (fsign g.speed < 0) = decide (g.speed < 0) ∧
    g.past_boundary s e =
      (if decide (g.speed < 0) = g.pong then decide (e < g.time)
       else decide (s > g.time)) := by
  refine ⟨decide_fsign g.speed, ?_⟩
  unfold past_boundary
  dsimp only
  rw [decide_fsign g.speed]
  by_cases hneg : g.speed < 0 <;> cases hpong : g.pong <;> simp [hneg]

/-- Witness for C1 on a concrete non-empty, unpaused track-set. -/
theorem past_boundary_table_witness :
    loopPastExample.is_empty = false ∧
    (decide (fsign loopPastExample.speed < 0) =
        decide (loopPastExample.speed < 0) ∧
     loopPastExample.past_boundary 0 1 =
       (if decide (loopPastExample.speed < 0) = loopPastExample.pong
        then decide ((1 : ℚ) < loopPastExample.time)
        else decide ((0 : ℚ) > loopPastExample.time))) :=
  ⟨by decide,
   past_boundary_table loopPastExample 0 1 (by decide) (by decide)
     (by decide) (by decide)⟩

/-- C3: while `paused` is true, any number of `advance` calls leave `time`
and `pong` unchanged, for all elapsed times. -/
theorem advance_paused_noop (g : SplineGroup) (hp : g.paused = true)
    (ds : List ℚ) :
    (ds.foldl SplineGroup.advance g).time = g.time ∧
    (ds.foldl SplineGroup.advance g).pong = g.pong := by
  have hfix : ds.foldl SplineGroup.advance g = g := by
    induction ds with
    | nil => rfl
    | cons d t ih =>
        rw [List.foldl_cons, advance_of_paused g d hp]
        exact ih
  rw [hfix]
  exact ⟨rfl, rfl⟩

/-- Witness for C3: two successive paused ticks change nothing. -/
theorem advance_paused_noop_witness :
    pausedExample.paused = true ∧
    ((([1, 2] : List ℚ).foldl SplineGroup.advance pausedExample).time =
        pausedExample.time ∧
     (([1, 2] : List ℚ).foldl SplineGroup.advance pausedExample).pong =
        pausedExample.pong) :=
  ⟨rfl, advance_paused_noop pausedExample rfl [1, 2]⟩

/-- C4: when every track has zero control points, `advance` leaves `time`
and `pong` unchanged, `is_empty` is true and `start_time`, `end_time`,
`duration` are all absent, for all delta, speed and loop style. -/
theorem empty_track_set_stability (g : SplineGroup) (d : ℚ)
    (h : ∀ t ∈ g.tracks, t = []) :
    (g.advance d).time = g.time ∧ (g.advance d).pong = g.pong ∧
    g.is_empty = true ∧ g.start_time = none ∧ g.end_time = none ∧
    g.duration = none := by
  have hempty : g.is_empty = true := by
    unfold is_empty spline_key_times
    simp only [Bool.not_eq_true', List.any_eq_false]
    intro t ht
    rw [h t ht]
    simp
  have hstart : g.start_time = none := by
    unfold start_time spline_key_times
    have hnil : g.tracks.filterMap (fun t => t.head?) = [] :=
      List.filterMap_eq_nil_iff.mpr (fun t ht => by rw [h t ht]; rfl)
    rw [hnil]
  have hend : g.end_time = none := by
    unfold end_time spline_key_times
    have hnil : g.tracks.filterMap (fun t => t.getLast?) = [] :=
      List.filterMap_eq_nil_iff.mpr (fun t ht => by rw [h t ht]; rfl)
    rw [hnil]
  have hadv : g.advance d = g := by
    unfold advance
    rw [hempty]
    simp
  refine ⟨by rw [hadv], by rw [hadv], hempty, hstart, hend, ?_⟩
  unfold duration
  rw [hstart, hend]

/-- Witness for C4 on a track-set of two empty tracks. -/
theorem empty_track_set_stability_witness :
    (∀ t ∈ emptyExample.tracks, t = []) ∧
    ((emptyExample.advance 4).time = emptyExample.time ∧
     (emptyExample.advance 4).pong = emptyExample.pong ∧
     emptyExample.is_empty = true ∧ emptyExample.start_time = none ∧
     emptyExample.end_time = none ∧ emptyExample.duration = none) :=
  ⟨by decide, empty_track_set_stability emptyExample 4 (by decide)⟩

/-- C5: with keys {0, 1, 2}, speed 1, time 1.9, `Once`: `advance 0.5`
overshoots to 2.4 without clamping, and a second `advance 0.5` leaves the
time at 2.4 since the past-boundary test `end_time 2 < time` now holds. -/
theorem once_freezes_at_boundary :
    (onceExample.advance 0.5).time = 2.4 ∧
    ((onceExample.advance 0.5).advance 0.5).time = 2.4 ∧
    (onceExample.advance 0.5).end_time = some 2 ∧
    (onceExample.advance 0.5).past_boundary 0 2 = true := by
  refine ⟨?_, ?_, ?_, ?_⟩ <;> with_unfolding_all rfl

/-- C6: with keys {0, 1}, speed 1, `PingPong`, time 0.9, pong false:
`advance 0.2` moves time to 1.1 keeping pong false; the next
`advance 0.05` sees `end_time 1 < time 1.1`, flips pong to true and snaps
time to `end_time` 1. -/
theorem ping_pong_flips_at_end :
    (pingPongExample.advance 0.2).time = 1.1 ∧
    (pingPongExample.advance 0.2).pong = false ∧
    (pingPongExample.advance 0.2).end_time = some 1 ∧
    ((pingPongExample.advance 0.2).advance 0.05).pong = true ∧
    ((pingPongExample.advance 0.2).advance 0.05).time = 1 := by
  refine ⟨?_, ?_, ?_, ?_, ?_⟩ <;> with_unfolding_all rfl

/-- C9: `advance` mutates at most `time` and `pong` — `speed`,
`loop_style`, `paused` and the tracks are unchanged — while `pause`,
`play` and `toggle_pause` mutate only `paused`. -/
theorem advance_and_controls_touch_only_their_fields (g : SplineGroup) (d : ℚ) :
    ((g.advance d).speed = g.speed ∧ (g.advance d).loop_style = g.loop_style ∧
     (g.advance d).paused = g.paused ∧ (g.advance d).tracks = g.tracks) ∧
    (g.pause.time = g.time ∧ g.pause.pong = g.pong ∧ g.pause.speed = g.speed ∧
     g.pause.loop_style = g.loop_style ∧ g.pause.tracks = g.tracks ∧
     g.pause.paused = true) ∧
    (g.play.time = g.time ∧ g.play.pong = g.pong ∧ g.play.speed = g.speed ∧
     g.play.loop_style = g.loop_style ∧ g.play.tracks = g.tracks ∧
     g.play.paused = false) ∧
    (g.toggle_pause.time = g.time ∧ g.toggle_pause.pong = g.pong ∧
     g.toggle_pause.speed = g.speed ∧ g.toggle_pause.loop_style = g.loop_style ∧
     g.toggle_pause.tracks = g.tracks ∧ g.toggle_pause.paused = !g.paused) := by
  obtain ⟨t, p, hE⟩ := g.advance_shape d
  rw [hE]
  exact ⟨⟨rfl, rfl, rfl, rfl⟩, ⟨rfl, rfl, rfl, rfl, rfl, rfl⟩,
    ⟨rfl, rfl, rfl, rfl, rfl, rfl⟩, ⟨rfl, rfl, rfl, rfl, rfl, rfl⟩⟩

/-- C2: for every non-empty, unpaused track-set, `advance` follows the
loop policy: under `Once` time integrates by `delta * speed` and freezes
past the boundary; under `Loop` it integrates and otherwise snaps to
`end_time` when reversed, else `start_time`; under `PingPong` it
integrates with the pong sign and otherwise flips `pong` and snaps to
`end_time` when the new pong is true, else `start_time`; `pong` changes
only in the `PingPong` past-boundary case. -/
theorem advance_policy (g : SplineGroup) (d s e : ℚ)
    (hne : g.is_empty = false) (hp : g.paused = false)
    (hs : g.start_time = some s) (he : g.end_time = some e) :
    (g.advance d).time =
      (match g.loop_style with
       | LoopStyle.Once =>
           if g.past_boundary s e then g.time else g.time + d * g.speed
       | LoopStyle.Loop =>
           if g.past_boundary s e then (if g.speed < 0 then e else s)
           else g.time + d * g.speed
       | LoopStyle.PingPong =>
           if g.past_boundary s e then (if !g.pong then e else s)
           else g.time + d * g.speed * (if g.pong then -1 else 1)) ∧
    (g.advance d).pong =
      (if g.loop_style = LoopStyle.PingPong ∧ g.past_boundary s e = true
       then !g.pong else g.pong) := by
  rw [advance_eq_of_some g d s e hne hp hs he]
  cases hls : g.loop_style <;>
    cases hpb : g.past_boundary s e <;>
      simp [hpb, fsign_lt_zero_iff]

/-- Witness for C2 on the concrete ping-pong track-set. -/
theorem advance_policy_witness :
    pingPongExample.is_empty = false ∧ pingPongExample.paused = false ∧
    ((pingPongExample.advance 0.2).time =
      (match pingPongExample.loop_style with
       | LoopStyle.Once =>
           if pingPongExample.past_boundary 0 1 then pingPongExample.time
           else pingPongExample.time + 0.2 * pingPongExample.speed
       | LoopStyle.Loop =>
           if pingPongExample.past_boundary 0 1 then
             (if pingPongExample.speed < 0 then (1 : ℚ) else 0)
           else pingPongExample.time + 0.2 * pingPongExample.speed
       | LoopStyle.PingPong =>
           if pingPongExample.past_boundary 0 1 then
             (if !pingPongExample.pong then (1 : ℚ) else 0)
           else pingPongExample.time + 0.2 * pingPongExample.speed *
             (if pingPongExample.pong then -1 else 1)) ∧
     (pingPongExample.advance 0.2).pong =
      (if pingPongExample.loop_style = LoopStyle.PingPong ∧
          pingPongExample.past_boundary 0 1 = true
       then !pingPongExample.pong else pingPongExample.pong)) :=
  ⟨by decide, rfl,
   advance_policy pingPongExample 0.2 0 1 (by decide) rfl (by decide) (by decide)⟩

/-- C7: with speed -1 (so reversed) under `Loop` with pong false, the
boundary crossing is detected by `start_time > time`, and when it holds
`advance` snaps `time` to `end_time`. -/
theorem negative_speed_loop_restart (g : SplineGroup) (d s e : ℚ)
    (hne : g.is_empty = false) (hp : g.paused = false)
    (hsp : g.speed = -1) (hls : g.loop_style = LoopStyle.Loop)
    (hpong : g.pong = false)
    (hs : g.start_time = some s) (he : g.end_time = some e) :
    g.past_boundary s e = decide (s > g.time) ∧
    (s > g.time → (g.advance d).time = e) := by
  have hpb : g.past_boundary s e = decide (s > g.time) := by
    unfold past_boundary
    dsimp only
    rw [hsp, hpong]
    norm_num [fsign]
  refine ⟨hpb, fun hgt => ?_⟩
  have hpbt : g.past_boundary s e = true := by
    rw [hpb]
    exact decide_eq_true hgt
  rw [advance_eq_of_some g d s e hne hp hs he, hls]
  simp [hpbt, hsp, fsign]

/-- Witness for C7 on a concrete reversed looping track-set. -/
theorem negative_speed_loop_restart_witness :
    reverseLoopExample.speed = -1 ∧ (0 : ℚ) > reverseLoopExample.time ∧
    reverseLoopExample.past_boundary 0 2 =
      decide ((0 : ℚ) > reverseLoopExample.time) ∧
    (reverseLoopExample.advance 3).time = 2 :=
  ⟨by decide, by decide,
   (negative_speed_loop_restart reverseLoopExample 3 0 2 (by decide) rfl
     (by decide) rfl rfl (by decide) (by decide)).1,
   (negative_speed_loop_restart reverseLoopExample 3 0 2 (by decide) rfl
     (by decide) rfl rfl (by decide) (by decide)).2 (by decide)⟩

/-- C10: when the past-boundary test already holds before the tick, the
boundary correction of `advance` is independent of the elapsed time —
including a zero tick: under `Loop` time snaps to the restart point, and
under `PingPong` pong flips and time snaps to the matching boundary. -/
theorem boundary_correction_ignores_delta (g : SplineGroup) (s e : ℚ)
    (hne : g.is_empty = false) (hp : g.paused = false)
    (hs : g.start_time = some s) (he : g.end_time = some e)
    (hpb : g.past_boundary s e = true) :
    (g.loop_style = LoopStyle.Loop →
      ∀ d : ℚ, (g.advance d).time = (if g.speed < 0 then e else s) ∧
        (g.advance d).pong = g.pong ∧
        (g.advance d).time = (g.advance 0).time ∧
        (g.advance d).pong = (g.advance 0).pong) ∧
    (g.loop_style = LoopStyle.PingPong →
      ∀ d : ℚ, (g.advance d).pong = !g.pong ∧
        (g.advance d).time = (if !g.pong then e else s) ∧
        (g.advance d).time = (g.advance 0).time ∧
        (g.advance d).pong = (g.advance 0).pong) := by
  constructor
  · intro hls d
    rw [advance_eq_of_some g d s e hne hp hs he,
      advance_eq_of_some g 0 s e hne hp hs he, hls]
    simp [hpb, fsign_lt_zero_iff]
  · intro hls d
    rw [advance_eq_of_some g d s e hne hp hs he,
      advance_eq_of_some g 0 s e hne hp hs he, hls]
    simp [hpb]

/-- Witness for C10: a zero-length tick and a long tick perform the same
snap on a looping track-set already past its end. -/
theorem boundary_correction_ignores_delta_witness :
    loopPastExample.past_boundary 0 1 = true ∧
    ((loopPastExample.advance 5).time =
        (if loopPastExample.speed < 0 then (1 : ℚ) else 0) ∧
     (loopPastExample.advance 5).pong = loopPastExample.pong ∧
     (loopPastExample.advance 5).time = (loopPastExample.advance 0).time ∧
     (loopPastExample.advance 5).pong = (loopPastExample.advance 0).pong) :=
  ⟨by decide,
   (boundary_correction_ignores_delta loopPastExample 0 1 (by decide) rfl
     (by decide) (by decide) (by decide)).1 rfl 5⟩

/-- The fold computing `start_time` returns one of the candidate values. -/
lemma foldl_minf_mem (l : List ℚ) :
    ∀ a : ℚ, l.foldl (fun acc v => if v < acc then v else acc) a ∈ a :: l := by
  induction l with
  | nil =>
      intro a
      simp
  | cons b t ih =>
      intro a
      simp only [List.foldl_cons]
      rcases List.mem_cons.mp (ih (if b < a then b else a)) with h | h
      · rw [h]
        rcases lt_or_le b a with hba | hba
        · rw [if_pos hba]
          exact List.mem_cons_of_mem _ (List.mem_cons_self _ _)
        · rw [if_neg (not_lt.mpr hba)]
          exact List.mem_cons_self _ _
      · exact List.mem_cons_of_mem _ (List.mem_cons_of_mem _ h)

/-- The fold computing `start_time` is a lower bound of the candidates. -/
lemma foldl_minf_le (l : List ℚ) :
    ∀ a : ℚ, ∀ x ∈ a :: l,
      l.foldl (fun acc v => if v < acc then v else acc) a ≤ x := by
  induction l with
  | nil =>
      intro a x hx
      rw [List.mem_singleton] at hx
      simp [hx]
  | cons b t ih =>
      intro a x hx
      simp only [List.foldl_cons]
      have hstep : t.foldl (fun acc v => if v < acc then v else acc)
          (if b < a then b else a) ≤ (if b < a then b else a) :=
        ih (if b < a then b else a) (if b < a then b else a)
          (List.mem_cons_self _ _)
      rcases List.mem_cons.mp hx with rfl | hx2
      · refine le_trans hstep ?_
        rcases lt_or_le b x with hba | hba
        · rw [if_pos hba]
          exact hba.le
        · rw [if_neg (not_lt.mpr hba)]
      · rcases List.mem_cons.mp hx2 with rfl | hx3
        · refine le_trans hstep ?_
          rcases lt_or_le x a with hba | hba
          · rw [if_pos hba]
          · rw [if_neg (not_lt.mpr hba)]
            exact hba
        · exact ih (if b < a then b else a) x (List.mem_cons_of_mem _ hx3)

/-- The fold computing `end_time` returns one of the candidate values. -/
lemma foldl_maxf_mem (l : List ℚ) :
    ∀ a : ℚ, l.foldl (fun acc v => if v > acc then v else acc) a ∈ a :: l := by
  induction l with
  | nil =>
      intro a
      simp
  | cons b t ih =>
      intro a
      simp only [List.foldl_cons]
      rcases List.mem_cons.mp (ih (if b > a then b else a)) with h | h
      · rw [h]
        rcases lt_or_le a b with hba | hba
        · rw [if_pos hba]
          exact List.mem_cons_of_mem _ (List.mem_cons_self _ _)
        · rw [if_neg (not_lt.mpr hba)]
          exact List.mem_cons_self _ _
      · exact List.mem_cons_of_mem _ (List.mem_cons_of_mem _ h)

/-- The fold computing `end_time` is an upper bound of the candidates. -/
lemma foldl_maxf_ge (l : List ℚ) :
    ∀ a : ℚ, ∀ x ∈ a :: l,
      x ≤ l.foldl (fun acc v => if v > acc then v else acc) a := by
  induction l with
  | nil =>
      intro a x hx
      rw [List.mem_singleton] at hx
      simp [hx]
  | cons b t ih =>
      intro a x hx
      simp only [List.foldl_cons]
      have hstep : (if b > a then b else a) ≤
          t.foldl (fun acc v => if v > acc then v else acc)
            (if b > a then b else a) :=
        ih (if b > a then b else a) (if b > a then b else a)
          (List.mem_cons_self _ _)
      rcases List.mem_cons.mp hx with rfl | hx2
      · refine le_trans ?_ hstep
        rcases lt_or_le x b with hba | hba
        · rw [if_pos hba]
          exact hba.le
        · rw [if_neg (not_lt.mpr hba)]
      · rcases List.mem_cons.mp hx2 with rfl | hx3
        · refine le_trans ?_ hstep
          rcases lt_or_le a x with hba | hba
          · rw [if_pos hba]
          · rw [if_neg (not_lt.mpr hba)]
            exact hba
        · exact ih (if b > a then b else a) x (List.mem_cons_of_mem _ hx3)

/-- Permuting the tracks does not change `start_time`. -/
lemma start_time_of_perm (g1 g2 : SplineGroup)
    (h : g1.tracks.Perm g2.tracks) : g1.start_time = g2.start_time := by
  have hp : (g1.tracks.filterMap (fun t => t.head?)).Perm
      (g2.tracks.filterMap (fun t => t.head?)) := h.filterMap _
  unfold start_time spline_key_times
  rcases h1 : g1.tracks.filterMap (fun t => t.head?) with _ | ⟨a1, l1⟩ <;>
    rcases h2 : g2.tracks.filterMap (fun t => t.head?) with _ | ⟨a2, l2⟩
  · rw [h1, h2]
  · rw [h1, h2] at hp
    exact absurd hp.symm.eq_nil (by simp)
  · rw [h1, h2] at hp
    exact absurd hp.eq_nil (by simp)
  · rw [h1, h2] at hp ⊢
    have m1 := foldl_minf_mem l1 a1
    have m2 := foldl_minf_mem l2 a2
    exact congrArg some (le_antisymm
      (foldl_minf_le l1 a1 _ (hp.mem_iff.mpr m2))
      (foldl_minf_le l2 a2 _ (hp.mem_iff.mp m1)))

/-- Permuting the tracks does not change `end_time`. -/
lemma end_time_of_perm (g1 g2 : SplineGroup)
    (h : g1.tracks.Perm g2.tracks) : g1.end_time = g2.end_time := by
  have hp : (g1.tracks.filterMap (fun t => t.getLast?)).Perm
      (g2.tracks.filterMap (fun t => t.getLast?)) := h.filterMap _
  unfold end_time spline_key_times
  rcases h1 : g1.tracks.filterMap (fun t => t.getLast?) with _ | ⟨a1, l1⟩ <;>
    rcases h2 : g2.tracks.filterMap (fun t => t.getLast?) with _ | ⟨a2, l2⟩
  · rw [h1, h2]
  · rw [h1, h2] at hp
    exact absurd hp.symm.eq_nil (by simp)
  · rw [h1, h2] at hp
    exact absurd hp.eq_nil (by simp)
  · rw [h1, h2] at hp ⊢
    have m1 := foldl_maxf_mem l1 a1
    have m2 := foldl_maxf_mem l2 a2
    exact congrArg some (le_antisymm
      (foldl_maxf_ge l2 a2 _ (hp.mem_iff.mp m1))
      (foldl_maxf_ge l1 a1 _ (hp.mem_iff.mpr m2)))

/-- Permuting the tracks does not change `duration`. -/
lemma duration_of_perm (g1 g2 : SplineGroup)
    (h : g1.tracks.Perm g2.tracks) : g1.duration = g2.duration := by
  unfold duration
  rw [start_time_of_perm g1 g2 h, end_time_of_perm g1 g2 h]

/-- C8: `duration` is absent unless both `start_time` and `end_time`
exist and otherwise is the absolute difference |start - end| — always
non-negative and symmetric in its endpoints — and it is invariant under
exchanging which track contributes the minimum and which the maximum key
time (any permutation of the tracks). -/
theorem duration_abs_and_symm (g g2 : SplineGroup)
    (hperm : g.tracks.Perm g2.tracks) :
    ((g.start_time = none ∨ g.end_time = none) → g.duration = none) ∧
    (∀ s e : ℚ, g.start_time = some s → g.end_time = some e →
        g.duration = some |s - e| ∧ 0 ≤ |s - e| ∧ |s - e| = |e - s|) ∧
    g.duration = g2.duration := by
  refine ⟨?_, ?_, duration_of_perm g g2 hperm⟩
  · intro h
    unfold duration
    rcases h with h | h
    · rw [h]
    · rcases hs2 : g.start_time with _ | s
      · rfl
      · rw [h]
  · intro s e hs2 he2
    unfold duration
    rw [hs2, he2]
    exact ⟨rfl, abs_nonneg _, abs_sub_comm s e⟩

/-- Witness for C8 on a two-track set and its track-swapped copy. -/
theorem duration_abs_and_symm_witness :
    twoTrackExample.tracks.Perm twoTrackSwapped.tracks ∧
    twoTrackExample.start_time = some 0 ∧
    twoTrackExample.end_time = some 6 ∧
    (twoTrackExample.duration = some |(0 : ℚ) - 6| ∧ 0 ≤ |(0 : ℚ) - 6| ∧
     |(0 : ℚ) - 6| = |(6 : ℚ) - 0|) ∧
    twoTrackExample.duration = twoTrackSwapped.duration :=
  ⟨by decide, by decide, by decide,
   (duration_abs_and_symm twoTrackExample twoTrackSwapped (by decide)).2.1 0 6
     (by decide) (by decide),
   (duration_abs_and_symm twoTrackExample twoTrackSwapped (by decide)).2.2⟩

end SplineGroup

end Bevy
